import Mathlib

/-!
Shallow embedding of the route-mismatch explainer of this repository
(src/contrib/lib/src/routehint.rs): the Diff Record data model, the segment
classifier for paths and queries, the media type comparator, the text diff
engine it relies on, the Diff Record builder and the two-line renderer.
Route and request metadata (rocket's `RouteSegment`, `FormItem`, media types)
are not part of the sources under review and are modelled from the spec's
data model (§3); everything else is translated from routehint.rs.
-/

/-- One edit operation of the text diff engine (the `difference` crate's
`Difference`): `Same` is text common to both strings, `Add` text present only
in the expected (edit) string, `Rem` text present only in the actual
(original) string. -/
inductive Difference where
  | Same (s : String)
  | Add (s : String)
  | Rem (s : String)
deriving DecidableEq, Repr

/-- Longest common subsequence of two character lists, the textbook recursion
driven by a fuel counter (`as.length + bs.length` fuel suffices), so the
definition is structurally recursive and reduces in the kernel. Models the
LCS pass of `difference::Changeset::new` with the empty separator. -/
def lcsAux : Nat → List Char → List Char → List Char
  | 0, _, _ => []
  | _ + 1, [], _ => []
  | _ + 1, _ :: _, [] => []
  | fuel + 1, a :: as, b :: bs =>
    if a = b then
      a :: lcsAux fuel as bs
    else
      let c1 := lcsAux fuel (a :: as) bs
      let c2 := lcsAux fuel as (b :: bs)
      if c1.length < c2.length then c2 else c1

/-- Longest common subsequence of two character lists. -/
def lcs (as bs : List Char) : List Char :=
  lcsAux (as.length + bs.length) as bs

/-- Split a character list at the first occurrence of `c`: the part before it
and the part after it, `c` itself removed (`([], [])` if `c` is absent, a
case the merge pass never reaches). -/
def splitFirst (c : Char) : List Char → List Char × List Char
  | [] => ([], [])
  | x :: xs =>
    if x = c then ([], xs)
    else
      let p := splitFirst c xs
      (x :: p.1, p.2)

/-- A removed chunk of the edit script, omitted when empty. -/
def remChunk (l : List Char) : List Difference :=
  if l.isEmpty then [] else [Difference.Rem (String.mk l)]

/-- An added chunk of the edit script, omitted when empty. -/
def addChunk (l : List Char) : List Difference :=
  if l.isEmpty then [] else [Difference.Add (String.mk l)]

/-- Merge pass of the text diff engine: walk the original and edited texts
along their common subsequence `cs`, emitting `Rem` for original-only chunks,
`Add` for edit-only chunks and `Same` for common characters. (The `difference`
crate groups adjacent common characters into one `Same` chunk; this embedding
emits them one by one — the concatenated `Same`/`Add`/`Rem` texts, which are
all the repository reads, are identical.) -/
def mergeDiff : List Char → List Char → List Char → List Difference
  | o, e, [] => remChunk o ++ addChunk e
  | o, e, c :: cs =>
    let so := splitFirst c o
    let se := splitFirst c e
    remChunk so.1 ++ addChunk se.1
      ++ (Difference.Same (String.mk [c]) :: mergeDiff so.2 se.2 cs)

/-- Modelled from the spec: the Text Diff Engine (§4.2). The repository calls
the external `difference` crate's `Changeset::new(orig, edit, "")`; this
embedding computes the character-level LCS edit script, and `distance` is the
insert/delete edit distance `|orig| + |edit| - 2·|LCS|` the crate reports for
the empty separator. -/
structure Changeset where
  diffs : List Difference
  distance : Nat
deriving DecidableEq, Repr

/-- `Changeset::new(orig, edit, "")`: the edit script from the actual text
`orig` to the expected text `edit`. -/
def Changeset.new (orig edit : String) : Changeset :=
  let o := orig.data
  let e := edit.data
  let c := lcs o e
  { diffs := mergeDiff o e c, distance := o.length + e.length - 2 * c.length }

/-- Path/query segment kinds (rocket's `http::route::Kind`): exact literal,
single-value capture, greedy multi-value capture. -/
inductive Kind where
  | Static
  | Single
  | Multi
deriving DecidableEq, Repr

/-- Modelled from the spec: a route path/query segment `{kind,
literal_or_name}` (§3) — rocket's `RouteSegment` metadata is not among the
sources under review. `string` is the literal-or-name text the diff code
displays (a Static segment's literal, a capture's name); `name` is the
capture name the query classifier matches keys against. -/
structure RouteSeg where
  kind : Kind
  string : String
  name : String
deriving DecidableEq, Repr

/-- Modelled from the spec: one raw query item `{key, raw_value}` of the
request (§3) — rocket's `FormItem` is not among the sources under review.
`raw` is the unparsed `key=value` text; item equality (used by the query
Multi collector) is field-wise. -/
structure QueryItem where
  key : String
  raw : String
deriving DecidableEq, Repr

/-- Modelled from the spec: a media type as a `(top, sub)` string pair (§3). -/
structure MediaType where
  top : String
  sub : String
deriving DecidableEq, Repr

/-- Rendering of a media type as `top/sub`, what `to_string` yields for the
parameter-free pairs of the spec's data model. -/
def MediaType.render (m : MediaType) : String := m.top ++ "/" ++ m.sub

/-- Modelled from the spec: a registered route (§3) — one HTTP verb (kept as
its string, only equality is used), path segments, optional query segments,
optional media type. -/
structure Route where
  method : String
  path_segments : List RouteSeg
  query_segments : Option (List RouteSeg)
  format : Option MediaType
deriving DecidableEq, Repr

/-- Modelled from the spec: an inbound request (§3). -/
structure Request where
  method : String
  path_segments : List String
  query_items : Option (List QueryItem)
  format : Option MediaType
deriving DecidableEq, Repr

/-- `MethodDiff` from routehint.rs. -/
inductive MethodDiff where
  | Same (m : String)
  | Change (route_m request_m : String)
deriving DecidableEq, Repr

/-- `SegmentDiff` from routehint.rs; `Diff` is the spec's `TextMismatch`. -/
inductive SegmentDiff where
  | StaticMatch (s : String)
  | SingleMatch (route_s req_s : String)
  | MultiMatch (route_s : String) (req_segs : List String)
  | Diff (diffs : List Difference)
  | Missing (s : String)
  | Unexpected (s : String)
deriving DecidableEq, Repr

/-- `IsMediaTypeMatch` from routehint.rs. -/
inductive IsMediaTypeMatch where
  | TrueStatic (s : String)
  | TrueDynamic (route_part req_part : String)
  | False (diffs : List Difference)
deriving DecidableEq, Repr

/-- `MediaTypeDiff` from routehint.rs: `IsMatch` is the spec's `BothMatch`,
`Missing` its `RouteExpectsButRequestLacks`, `Unexpected` its
`RequestHasButRouteDoesNotExpect`, `None` its `NeitherExpects`. -/
inductive MediaTypeDiff where
  | IsMatch (top sub : IsMediaTypeMatch)
  | Missing (s : String)
  | Unexpected (s : String)
  | None
deriving DecidableEq, Repr

/-- Case-insensitive (ASCII) string equality, the comparison rocket's
`UncasedStr` equality performs. -/
def uncasedEq (a b : String) : Bool := a.toLower == b.toLower

/-- `IsMediaTypeMatch::from` (routehint.rs lines 57–69): equal (uncased)
parts match statically; otherwise a `*` on either side matches dynamically;
otherwise the text diff engine explains the mismatch, request part as the
original text and route part as the edit. -/
def IsMediaTypeMatch.fromParts (route_mt_part req_mt_part : String) : IsMediaTypeMatch :=
  if uncasedEq route_mt_part req_mt_part then
    .TrueStatic route_mt_part
  else if uncasedEq route_mt_part "*" || uncasedEq req_mt_part "*" then
    .TrueDynamic route_mt_part req_mt_part
  else
    .False (Changeset.new req_mt_part route_mt_part).diffs

/-- `RoutingDiff::media_type_diff` (routehint.rs lines 94–109) on the
optional media types of the route (`route.format`) and the request
(`request.format()`). -/
def mediaTypeDiff (route_fmt req_fmt : Option MediaType) : MediaTypeDiff :=
  match route_fmt with
  | some route_mt =>
    match req_fmt with
    | some req_mt =>
      .IsMatch (IsMediaTypeMatch.fromParts route_mt.top req_mt.top)
               (IsMediaTypeMatch.fromParts route_mt.sub req_mt.sub)
    | none => .Missing route_mt.render
  | none =>
    match req_fmt with
    | some req_mt => .Unexpected req_mt.render
    | none => .None

/-- First changeset of minimal `distance` in the list, `none` for the empty
list: Rust's `Iterator::min_by` on `a.distance.cmp(&b.distance)`, which
returns the first of equally minimal elements. -/
def minByDistance : List Changeset → Option Changeset
  | [] => none
  | c :: cs => some (cs.foldl (fun best x => if x.distance < best.distance then x else best) c)

/-- Classification of one route query segment against the request's query
items: the body of the closure `query_diff` maps over `route_params`
(routehint.rs lines 118–172). `matched` is the accumulated
`matched_req_params`, returned updated; `none` models the `expect` on the
minimum-edit-distance candidate, which fails when `req_params` is empty. -/
def querySegDiff (req_params : List QueryItem) (matched : List QueryItem)
    (route_param : RouteSeg) : Option (SegmentDiff × List QueryItem) :=
  match route_param.kind with
  | .Static =>
    match req_params.find? (fun req_param => route_param.string == req_param.raw) with
    | some req_param => some (.StaticMatch req_param.raw, matched ++ [req_param])
    | none =>
      match minByDistance (req_params.map fun req_param =>
          Changeset.new req_param.raw route_param.string) with
      | some cs => some (.Diff cs.diffs, matched)
      | none => none
  | .Single =>
    match req_params.find? (fun req_param => req_param.key == route_param.name) with
    | some req_param =>
      some (.SingleMatch route_param.string req_param.raw, matched ++ [req_param])
    | none => some (.Missing route_param.string, matched)
  | .Multi =>
    some (.MultiMatch route_param.string
      ((req_params.filter fun req_param => matched.all fun m => req_param != m).map
        fun req_param => req_param.raw), matched)

/-- The fold `query_diff`'s map performs over the route's query segments,
threading `matched_req_params`; `none` models a panic of the `expect`. -/
def queryDiffGo (req_params : List QueryItem) :
    List RouteSeg → List QueryItem → Option (List SegmentDiff)
  | [], _ => some []
  | route_param :: rest, matched =>
    match querySegDiff req_params matched route_param with
    | none => none
    | some (d, matched2) =>
      match queryDiffGo req_params rest matched2 with
      | none => none
      | some ds => some (d :: ds)

/-- `RoutingDiff::query_diff` (routehint.rs lines 111–193) on the optional
query template of the route (`route.metadata().query_segments`) and the
optional raw query items of the request (`request.raw_query_items()`). -/
def queryDiff (route_query : Option (List RouteSeg))
    (req_query : Option (List QueryItem)) : Option (List SegmentDiff) :=
  match route_query with
  | some route_params =>
    match req_query with
    | some req_params => queryDiffGo req_params route_params []
    | none => some (route_params.map fun route_param => .Missing route_param.string)
  | none =>
    match req_query with
    | some req_params => some (req_params.map fun req_param => .Unexpected req_param.raw)
    | none => some []

/-- The per-route-segment loop of `RoutingDiff::path_diff` (routehint.rs
lines 199–226): one entry per route segment. A Multi segment collects the
current and all remaining request segments through a cloned iterator, so the
walk itself still advances one request segment per route segment. -/
def pathDiffGo : List RouteSeg → List String → List SegmentDiff
  | [], _ => []
  | route_seg :: rest, [] => .Missing route_seg.string :: pathDiffGo rest []
  | route_seg :: rest, req_seg :: req_rest =>
    (match route_seg.kind with
     | .Static =>
       if route_seg.string == req_seg then SegmentDiff.StaticMatch req_seg
       else SegmentDiff.Diff (Changeset.new req_seg route_seg.string).diffs
     | .Single => SegmentDiff.SingleMatch route_seg.string req_seg
     | .Multi => SegmentDiff.MultiMatch route_seg.string (req_seg :: req_rest))
    :: pathDiffGo rest req_rest

/-- `RoutingDiff::path_diff` (routehint.rs lines 195–236): the per-segment
walk, after which the request segments beyond the route's length become
`Unexpected` — unless the walk's last entry is a `MultiMatch`. -/
def pathDiff (route_segs : List RouteSeg) (req_segs : List String) : List SegmentDiff :=
  let result := pathDiffGo route_segs req_segs
  match result.getLast? with
  | some (SegmentDiff.MultiMatch _ _) => result
  | _ => result ++ (req_segs.drop route_segs.length).map SegmentDiff.Unexpected

/-- `RoutingDiff` (routehint.rs lines 72–78), the Diff Record. -/
structure RoutingDiff where
  method : MethodDiff
  path_diff : List SegmentDiff
  query : List SegmentDiff
  media_type : MediaTypeDiff
deriving DecidableEq, Repr

/-- `RoutingDiff::from` (routehint.rs lines 80–92), the Diff Record builder;
`none` models the one panic the query diff can raise. -/
def RoutingDiff.build (route : Route) (request : Request) : Option RoutingDiff :=
  match queryDiff route.query_segments request.query_items with
  | none => none
  | some q =>
    some { method := if route.method == request.method then .Same route.method
                     else .Change route.method request.method,
           path_diff := pathDiff route.path_segments request.path_segments,
           query := q,
           media_type := mediaTypeDiff route.format request.format }

/-- RGB terminal color (yansi's `Color::RGB`). -/
inductive Color where
  | RGB (r g b : Nat)
deriving DecidableEq, Repr

/-- ANSI painting of a string, as yansi renders `color.paint(s)` inside
`format!`. -/
def Color.paint (c : Color) (s : String) : String :=
  match c with
  | .RGB r g b =>
    "\x1b[38;2;" ++ toString r ++ ";" ++ toString g ++ ";" ++ toString b ++ "m"
      ++ s ++ "\x1b[0m"

/-- `RoutingDiff::color_add_diffs` (routehint.rs lines 238–244). -/
def colorAddDiffs (diffs : List Difference) (color : Color) : String :=
  diffs.foldl (fun acc diff =>
    match diff with
    | Difference.Same s => acc ++ s
    | Difference.Add s => acc ++ color.paint s
    | Difference.Rem _ => acc) ""

/-- `RoutingDiff::print` (routehint.rs lines 248–396) as a pure function: the
pair of lines it prints, the route-expected line first and the
request-actual line second. -/
def RoutingDiff.print (d : RoutingDiff) : String × String :=
  let red := Color.RGB 179 0 0
  let green := Color.RGB 0 128 0
  let route_method :=
    match d.method with
    | MethodDiff.Same m => m
    | MethodDiff.Change route_m _ => green.paint route_m
  let request_method :=
    match d.method with
    | MethodDiff.Same m => m
    | MethodDiff.Change _ request_m => red.paint request_m
  let route_path0 := d.path_diff.foldl (fun acc seg_diff =>
    match seg_diff with
    | SegmentDiff.StaticMatch route_seg => acc ++ "/" ++ route_seg
    | SegmentDiff.SingleMatch route_seg _ => acc ++ "/" ++ route_seg
    | SegmentDiff.MultiMatch route_seg _ => acc ++ "/" ++ route_seg
    | SegmentDiff.Diff diffs => acc ++ "/" ++ colorAddDiffs diffs green
    | SegmentDiff.Missing route_seg => acc ++ "/" ++ green.paint route_seg
    | SegmentDiff.Unexpected _ => acc) ""
  let route_path := if route_path0.length == 0 then route_path0.push '/' else route_path0
  let request_path0 := d.path_diff.foldl (fun acc seg_diff =>
    match seg_diff with
    | SegmentDiff.StaticMatch req_seg => acc ++ "/" ++ req_seg
    | SegmentDiff.SingleMatch _ req_seg => acc ++ "/" ++ req_seg
    | SegmentDiff.MultiMatch _ req_segs =>
      acc ++ req_segs.foldl (fun acc2 req_seg => acc2 ++ "/" ++ req_seg) ""
    | SegmentDiff.Diff diffs =>
      acc ++ "/" ++ diffs.foldl (fun acc2 diff =>
        match diff with
        | Difference.Same s => acc2 ++ s
        | Difference.Add _ => acc2
        | Difference.Rem req_part => acc2 ++ red.paint req_part) ""
    | SegmentDiff.Missing _ => acc
    | SegmentDiff.Unexpected req_seg => acc ++ "/" ++ red.paint req_seg) ""
  let request_path := if request_path0.length == 0 then request_path0.push '/' else request_path0
  let route_query0 := d.query.foldl (fun acc seg_diff =>
    match seg_diff with
    | SegmentDiff.StaticMatch route_seg => acc ++ "&" ++ route_seg
    | SegmentDiff.SingleMatch route_seg _ => acc ++ "&" ++ route_seg
    | SegmentDiff.MultiMatch route_seg _ => acc ++ "&" ++ route_seg
    | SegmentDiff.Diff diffs =>
      acc ++ "&" ++ diffs.foldl (fun seg_diff2 diff =>
        match diff with
        | Difference.Same s => seg_diff2 ++ s
        | Difference.Add route_part => seg_diff2 ++ green.paint route_part
        | Difference.Rem _ => seg_diff2) ""
    | SegmentDiff.Missing route_seg => acc ++ "&" ++ green.paint route_seg
    | SegmentDiff.Unexpected _ => acc) ""
  let route_query := if route_query0.length > 0 then "?" ++ route_query0.drop 1 else route_query0
  let request_query0 := d.query.foldl (fun acc seg_diff =>
    match seg_diff with
    | SegmentDiff.StaticMatch req_seg => acc ++ "&" ++ req_seg
    | SegmentDiff.SingleMatch _ req_seg => acc ++ "&" ++ req_seg
    | SegmentDiff.MultiMatch _ req_segs =>
      acc ++ req_segs.foldl (fun acc2 req_seg => acc2 ++ "&" ++ req_seg) ""
    | SegmentDiff.Diff diffs =>
      acc ++ "&" ++ diffs.foldl (fun acc2 diff =>
        match diff with
        | Difference.Same s => acc2 ++ s
        | Difference.Add _ => acc2
        | Difference.Rem req_part => acc2 ++ red.paint req_part) ""
    | SegmentDiff.Missing _ => acc
    | SegmentDiff.Unexpected req_seg => acc ++ "&" ++ red.paint req_seg) ""
  let request_query :=
    if request_query0.length > 0 then "?" ++ request_query0.drop 1 else request_query0
  let route_media :=
    match d.media_type with
    | MediaTypeDiff.IsMatch top _ =>
      (match top with
       | IsMediaTypeMatch.TrueStatic route_mt => route_mt
       | IsMediaTypeMatch.TrueDynamic route_mt _ => route_mt
       | IsMediaTypeMatch.False diffs =>
         diffs.foldl (fun acc diff =>
           match diff with
           | Difference.Same s => acc ++ s
           | Difference.Add route_mt_part => acc ++ green.paint route_mt_part
           | Difference.Rem _ => acc) "")
    | MediaTypeDiff.Missing route_mt => green.paint route_mt
    | MediaTypeDiff.Unexpected _ => ""
    | MediaTypeDiff.None => ""
  (route_method ++ ": " ++ route_path ++ route_query ++ "   " ++ route_media,
   request_method ++ ": " ++ request_path ++ request_query)

/-- Text of the `Same` and `Rem` operations of an edit script, concatenated
in order (`Add` dropped): what the script says the actual string was. -/
def sameRemText : List Difference → String
  | [] => ""
  | Difference.Same s :: ds => s ++ sameRemText ds
  | Difference.Rem s :: ds => s ++ sameRemText ds
  | Difference.Add _ :: ds => sameRemText ds

/-- Text of the `Same` and `Add` operations of an edit script, concatenated
in order (`Rem` dropped): what the script says the expected string was. -/
def sameAddText : List Difference → String
  | [] => ""
  | Difference.Same s :: ds => s ++ sameAddText ds
  | Difference.Add s :: ds => s ++ sameAddText ds
  | Difference.Rem _ :: ds => sameAddText ds

/-- The trailing entries `path_diff` appends after the per-segment walk:
nothing when the walk ends in a `MultiMatch`, otherwise one `Unexpected` per
request path segment beyond the route's length (routehint.rs lines 227–234). -/
def pathExtras (route_segs : List RouteSeg) (req_segs : List String) : List SegmentDiff :=
  match (pathDiffGo route_segs req_segs).getLast? with
  | some (SegmentDiff.MultiMatch _ _) => []
  | _ => (req_segs.drop route_segs.length).map SegmentDiff.Unexpected

/-- Appending strings built from character lists concatenates the lists. -/
theorem String.mk_append_mk (a b : List Char) : String.mk a ++ String.mk b = String.mk (a ++ b) :=
  rfl

/-- The LCS candidate is a subsequence of the first input. -/
theorem lcsAux_sublist_left : ∀ (f : Nat) (as bs : List Char), List.Sublist (lcsAux f as bs) as := by
  intro f
  induction f with
  | zero => intro as bs; exact List.nil_sublist as
  | succ f ih =>
    intro as bs
    cases as with
    | nil => simp [lcsAux]
    | cons a as =>
      cases bs with
      | nil => simp [lcsAux]
      | cons b bs =>
        simp only [lcsAux]
        by_cases h : a = b
        · simp only [if_pos h]
          exact List.Sublist.cons₂ a (ih as bs)
        · simp only [if_neg h]
          by_cases h2 : (lcsAux f (a :: as) bs).length < (lcsAux f as (b :: bs)).length
          · simp only [if_pos h2]
            exact List.Sublist.cons a (ih as (b :: bs))
          · simp only [if_neg h2]
            exact ih (a :: as) bs

/-- The LCS candidate is a subsequence of the second input. -/
theorem lcsAux_sublist_right : ∀ (f : Nat) (as bs : List Char), List.Sublist (lcsAux f as bs) bs := by
  intro f
  induction f with
  | zero => intro as bs; exact List.nil_sublist bs
  | succ f ih =>
    intro as bs
    cases as with
    | nil => simp [lcsAux]
    | cons a as =>
      cases bs with
      | nil => simp [lcsAux]
      | cons b bs =>
        simp only [lcsAux]
        by_cases h : a = b
        · simp only [if_pos h]
          subst h
          exact List.Sublist.cons₂ a (ih as bs)
        · simp only [if_neg h]
          by_cases h2 : (lcsAux f (a :: as) bs).length < (lcsAux f as (b :: bs)).length
          · simp only [if_pos h2]
            exact ih as (b :: bs)
          · simp only [if_neg h2]
            exact List.Sublist.cons b (ih (a :: as) bs)

/-- With enough fuel, the LCS of a list with itself is the list. -/
theorem lcsAux_self : ∀ (f : Nat) (l : List Char), l.length ≤ f → lcsAux f l l = l := by
  intro f
  induction f with
  | zero =>
    intro l h
    have : l = [] := List.length_eq_zero.mp (Nat.le_zero.mp h)
    subst this
    rfl
  | succ f ih =>
    intro l h
    cases l with
    | nil => rfl
    | cons a as =>
      simp only [lcsAux, if_pos rfl]
      exact congrArg (a :: ·) (ih as (Nat.le_of_succ_le_succ h))

/-- The LCS of a list with itself is the list. -/
theorem lcs_self (l : List Char) : lcs l l = l :=
  lcsAux_self _ l (Nat.le_add_right _ _)

/-- If `c` occurs in `l`, `splitFirst` cuts `l` at its first occurrence. -/
theorem splitFirst_eq (c : Char) : ∀ (l : List Char), c ∈ l →
    l = (splitFirst c l).1 ++ c :: (splitFirst c l).2 ∧ c ∉ (splitFirst c l).1 := by
  intro l
  induction l with
  | nil => intro h; exact absurd h (List.not_mem_nil c)
  | cons x xs ih =>
    intro h
    by_cases hx : x = c
    · subst hx
      constructor
      · simp [splitFirst]
      · simp [splitFirst]
    · have hm : c ∈ xs := by
        rcases List.mem_cons.mp h with h1 | h1
        · exact absurd h1.symm hx
        · exact h1
      obtain ⟨h1, h2⟩ := ih hm
      constructor
      · simp only [splitFirst, if_neg hx, List.cons_append]
        exact congrArg (x :: ·) h1
      · simp only [splitFirst, if_neg hx]
        intro hmem
        rcases List.mem_cons.mp hmem with h3 | h3
        · exact hx h3.symm
        · exact h2 h3

/-- A subsequence starting in `c` embedded past a `c`-free prefix continues
past that first `c`. -/
theorem sublist_cons_elim : ∀ (pre : List Char) (c : Char) (cs post : List Char),
    c ∉ pre → List.Sublist (c :: cs) (pre ++ c :: post) → List.Sublist cs post := by
  intro pre
  induction pre with
  | nil =>
    intro c cs post _ h
    rw [List.nil_append] at h
    cases h with
    | cons _ h1 => exact List.sublist_of_cons_sublist h1
    | cons₂ _ h1 => exact h1
  | cons p pre ih =>
    intro c cs post hnin h
    rw [List.cons_append] at h
    cases h with
    | cons _ h1 => exact ih c cs post (fun hm => hnin (List.mem_cons_of_mem p hm)) h1
    | cons₂ _ h1 => exact absurd (List.mem_cons_self _ _) hnin

/-- The kept-text extractors distribute over edit-script concatenation. -/
theorem sameRemText_append : ∀ (xs ys : List Difference),
    sameRemText (xs ++ ys) = sameRemText xs ++ sameRemText ys := by
  intro xs ys
  induction xs with
  | nil => rfl
  | cons d ds ih =>
    cases d with
    | Same s =>
      show s ++ sameRemText (ds ++ ys) = s ++ sameRemText ds ++ sameRemText ys
      rw [ih, String.append_assoc]
    | Add s => exact ih
    | Rem s =>
      show s ++ sameRemText (ds ++ ys) = s ++ sameRemText ds ++ sameRemText ys
      rw [ih, String.append_assoc]

/-- The kept-text extractors distribute over edit-script concatenation. -/
theorem sameAddText_append : ∀ (xs ys : List Difference),
    sameAddText (xs ++ ys) = sameAddText xs ++ sameAddText ys := by
  intro xs ys
  induction xs with
  | nil => rfl
  | cons d ds ih =>
    cases d with
    | Same s =>
      show s ++ sameAddText (ds ++ ys) = s ++ sameAddText ds ++ sameAddText ys
      rw [ih, String.append_assoc]
    | Add s =>
      show s ++ sameAddText (ds ++ ys) = s ++ sameAddText ds ++ sameAddText ys
      rw [ih, String.append_assoc]
    | Rem s => exact ih

/-- A removed chunk keeps exactly its text on the actual side. -/
theorem sameRemText_remChunk (l : List Char) : sameRemText (remChunk l) = String.mk l := by
  cases l with
  | nil => rfl
  | cons x xs => simp [remChunk, sameRemText, String.append_empty]

/-- An added chunk contributes nothing to the actual side. -/
theorem sameRemText_addChunk (l : List Char) : sameRemText (addChunk l) = "" := by
  cases l with
  | nil => rfl
  | cons x xs => simp [addChunk, sameRemText]

/-- An added chunk keeps exactly its text on the expected side. -/
theorem sameAddText_addChunk (l : List Char) : sameAddText (addChunk l) = String.mk l := by
  cases l with
  | nil => rfl
  | cons x xs => simp [addChunk, sameAddText, String.append_empty]

/-- A removed chunk contributes nothing to the expected side. -/
theorem sameAddText_remChunk (l : List Char) : sameAddText (remChunk l) = "" := by
  cases l with
  | nil => rfl
  | cons x xs => simp [remChunk, sameAddText]

/-- Merging along a common subsequence of both inputs reconstructs the actual
input from the `Same` and `Rem` operations. -/
theorem mergeDiff_sameRem : ∀ (cs o e : List Char),
    List.Sublist cs o → List.Sublist cs e →
    sameRemText (mergeDiff o e cs) = String.mk o := by
  intro cs
  induction cs with
  | nil =>
    intro o e _ _
    show sameRemText (remChunk o ++ addChunk e) = String.mk o
    rw [sameRemText_append, sameRemText_remChunk, sameRemText_addChunk, String.append_empty]
  | cons c cs ih =>
    intro o e ho he
    have hco : c ∈ o := ho.subset (List.mem_cons_self c cs)
    have hce : c ∈ e := he.subset (List.mem_cons_self c cs)
    obtain ⟨ho1, ho2⟩ := splitFirst_eq c o hco
    obtain ⟨he1, he2⟩ := splitFirst_eq c e hce
    have hso : List.Sublist cs (splitFirst c o).2 := sublist_cons_elim _ c cs _ ho2 (ho1 ▸ ho)
    have hse : List.Sublist cs (splitFirst c e).2 := sublist_cons_elim _ c cs _ he2 (he1 ▸ he)
    show sameRemText (remChunk (splitFirst c o).1 ++ addChunk (splitFirst c e).1 ++
      (Difference.Same (String.mk [c])
        :: mergeDiff (splitFirst c o).2 (splitFirst c e).2 cs)) = String.mk o
    rw [sameRemText_append, sameRemText_append, sameRemText_remChunk, sameRemText_addChunk,
      String.append_empty]
    show String.mk (splitFirst c o).1 ++
      (String.mk [c] ++ sameRemText (mergeDiff (splitFirst c o).2 (splitFirst c e).2 cs)) =
        String.mk o
    rw [ih _ _ hso hse, String.mk_append_mk, String.mk_append_mk]
    rw [List.singleton_append]
    exact congrArg String.mk ho1.symm

/-- Merging along a common subsequence of both inputs reconstructs the
expected input from the `Same` and `Add` operations. -/
theorem mergeDiff_sameAdd : ∀ (cs o e : List Char),
    List.Sublist cs o → List.Sublist cs e →
    sameAddText (mergeDiff o e cs) = String.mk e := by
  intro cs
  induction cs with
  | nil =>
    intro o e _ _
    show sameAddText (remChunk o ++ addChunk e) = String.mk e
    rw [sameAddText_append, sameAddText_remChunk, sameAddText_addChunk]
    rfl
  | cons c cs ih =>
    intro o e ho he
    have hco : c ∈ o := ho.subset (List.mem_cons_self c cs)
    have hce : c ∈ e := he.subset (List.mem_cons_self c cs)
    obtain ⟨ho1, ho2⟩ := splitFirst_eq c o hco
    obtain ⟨he1, he2⟩ := splitFirst_eq c e hce
    have hso : List.Sublist cs (splitFirst c o).2 := sublist_cons_elim _ c cs _ ho2 (ho1 ▸ ho)
    have hse : List.Sublist cs (splitFirst c e).2 := sublist_cons_elim _ c cs _ he2 (he1 ▸ he)
    show sameAddText (remChunk (splitFirst c o).1 ++ addChunk (splitFirst c e).1 ++
      (Difference.Same (String.mk [c])
        :: mergeDiff (splitFirst c o).2 (splitFirst c e).2 cs)) = String.mk e
    rw [sameAddText_append, sameAddText_append, sameAddText_remChunk, sameAddText_addChunk]
    show String.mk (splitFirst c e).1 ++
      (String.mk [c] ++ sameAddText (mergeDiff (splitFirst c o).2 (splitFirst c e).2 cs)) =
        String.mk e
    rw [ih _ _ hso hse, String.mk_append_mk, String.mk_append_mk]
    rw [List.singleton_append]
    exact congrArg String.mk he1.symm

/-- Diffing a text against itself emits one `Same` operation per character. -/
theorem mergeDiff_self : ∀ (l : List Char),
    mergeDiff l l l = l.map (fun c => Difference.Same (String.mk [c])) := by
  intro l
  induction l with
  | nil => rfl
  | cons c l ih =>
    have hs : splitFirst c (c :: l) = ([], l) := by simp [splitFirst]
    show remChunk (splitFirst c (c :: l)).1 ++ addChunk (splitFirst c (c :: l)).1 ++
      (Difference.Same (String.mk [c])
        :: mergeDiff (splitFirst c (c :: l)).2 (splitFirst c (c :: l)).2 l) = _
    rw [hs]
    show remChunk [] ++ addChunk [] ++ (Difference.Same (String.mk [c]) :: mergeDiff l l l) = _
    rw [ih]
    rfl

/-- The fold `minByDistance` performs returns the first element of minimal
distance: it is an element of the list, no element beats its distance, and
every earlier element has strictly greater distance. -/
theorem foldlMin_first : ∀ (cs : List Changeset) (c : Changeset),
    ∃ i y, (c :: cs)[i]? = some y ∧
      List.foldl (fun best x => if x.distance < best.distance then x else best) c cs = y ∧
      (∀ z ∈ c :: cs, y.distance ≤ z.distance) ∧
      (∀ (j : Nat) (z : Changeset), j < i → (c :: cs)[j]? = some z → y.distance < z.distance) := by
  intro cs
  induction cs with
  | nil =>
    intro c
    refine ⟨0, c, rfl, rfl, ?_, ?_⟩
    · intro z hz
      rcases List.mem_cons.mp hz with rfl | hz2
      · exact Nat.le_refl _
      · exact absurd hz2 (List.not_mem_nil z)
    · intro j z hj _
      exact absurd hj (Nat.not_lt_zero j)
  | cons x xs ih =>
    intro c
    by_cases h : x.distance < c.distance
    · obtain ⟨i, y, hget, hfold, hmin, hfirst⟩ := ih x
      refine ⟨i + 1, y, ?_, ?_, ?_, ?_⟩
      · simpa using hget
      · show List.foldl _ (if x.distance < c.distance then x else c) xs = y
        rw [if_pos h]
        exact hfold
      · intro z hz
        rcases List.mem_cons.mp hz with rfl | hz2
        · exact Nat.le_of_lt (Nat.lt_of_le_of_lt (hmin x (List.mem_cons_self x xs)) h)
        · exact hmin z hz2
      · intro j z hj hz
        cases j with
        | zero =>
          have hzc : z = c := by simpa using hz.symm
          subst hzc
          exact Nat.lt_of_le_of_lt (hmin x (List.mem_cons_self x xs)) h
        | succ j =>
          exact hfirst j z (Nat.lt_of_succ_lt_succ hj) (by simpa using hz)
    · obtain ⟨i, y, hget, hfold, hmin, hfirst⟩ := ih c
      have hcx : c.distance ≤ x.distance := Nat.le_of_not_lt h
      cases i with
      | zero =>
        obtain rfl : c = y := by simpa using hget
        refine ⟨0, c, rfl, ?_, ?_, ?_⟩
        · show List.foldl _ (if x.distance < c.distance then x else c) xs = c
          rw [if_neg h]
          exact hfold
        · intro z hz
          rcases List.mem_cons.mp hz with rfl | hz2
          · exact Nat.le_refl _
          · rcases List.mem_cons.mp hz2 with rfl | hz3
            · exact hcx
            · exact hmin z (List.mem_cons_of_mem c hz3)
        · intro j z hj _
          exact absurd hj (Nat.not_lt_zero j)
      | succ i =>
        have hyc : y.distance < c.distance := hfirst 0 c (Nat.succ_pos i) (by simp)
        refine ⟨i + 2, y, ?_, ?_, ?_, ?_⟩
        · simpa using hget
        · show List.foldl _ (if x.distance < c.distance then x else c) xs = y
          rw [if_neg h]
          exact hfold
        · intro z hz
          rcases List.mem_cons.mp hz with rfl | hz2
          · exact hmin z (List.mem_cons_self z _)
          · rcases List.mem_cons.mp hz2 with rfl | hz3
            · exact Nat.le_of_lt (Nat.lt_of_lt_of_le hyc hcx)
            · exact hmin z (List.mem_cons_of_mem c hz3)
        · intro j z hj hz
          cases j with
          | zero =>
            have hzc : z = c := by simpa using hz.symm
            subst hzc
            exact hyc
          | succ j =>
            cases j with
            | zero =>
              have hzx : z = x := by simpa using hz.symm
              subst hzx
              exact Nat.lt_of_lt_of_le hyc hcx
            | succ j =>
              refine hfirst (j + 1) z (by omega) ?_
              simpa using hz

/-- Classifying one query segment succeeds whenever the request has at least
one query item: only the empty candidate list can make the minimum-distance
lookup fail. -/
theorem querySegDiff_isSome (req_params matched : List QueryItem) (route_param : RouteSeg)
    (hne : req_params ≠ []) :
    (querySegDiff req_params matched route_param).isSome = true := by
  cases req_params with
  | nil => exact absurd rfl hne
  | cons r rs =>
    obtain ⟨k, s, n⟩ := route_param
    cases k with
    | Static =>
      cases hf : (r :: rs).find? (fun req_param => s == req_param.raw) with
      | some q => simp [querySegDiff, hf]
      | none => simp [querySegDiff, hf, minByDistance]
    | Single =>
      cases hf : (r :: rs).find? (fun req_param => req_param.key == n) with
      | some q => simp [querySegDiff, hf]
      | none => simp [querySegDiff, hf]
    | Multi => simp [querySegDiff]

/-- The query walk succeeds whenever the request has at least one query item. -/
theorem queryDiffGo_isSome (req_params : List QueryItem) (hne : req_params ≠ []) :
    ∀ (rps : List RouteSeg) (matched : List QueryItem),
    (queryDiffGo req_params rps matched).isSome = true := by
  intro rps
  induction rps with
  | nil => intro matched; rfl
  | cons rp rest ih =>
    intro matched
    have h1 := querySegDiff_isSome req_params matched rp hne
    cases hq : querySegDiff req_params matched rp with
    | none => rw [hq] at h1; cases h1
    | some pr =>
      have h2 := ih pr.2
      cases hq2 : queryDiffGo req_params rest pr.2 with
      | none => rw [hq2] at h2; cases h2
      | some ds =>
        simp only [queryDiffGo, hq]
        simp [hq2]

/-- The per-segment path walk yields exactly one entry per route segment. -/
theorem pathDiffGo_length : ∀ (rs : List RouteSeg) (qs : List String),
    (pathDiffGo rs qs).length = rs.length := by
  intro rs
  induction rs with
  | nil => intro qs; rfl
  | cons r rest ih =>
    intro qs
    cases qs with
    | nil => simp [pathDiffGo, ih]
    | cons q qrest => simp [pathDiffGo, ih]

/-- Every route segment positioned past the request's last path segment is
classified `Missing` with its own text, whatever its kind. -/
theorem pathDiffGo_missing : ∀ (rs : List RouteSeg) (qs : List String) (i : Nat) (r : RouteSeg),
    qs.length ≤ i → rs[i]? = some r →
    (pathDiffGo rs qs)[i]? = some (SegmentDiff.Missing r.string) := by
  intro rs
  induction rs with
  | nil => intro qs i r _ h; simp at h
  | cons r0 rest ih =>
    intro qs i r hlen hget
    cases qs with
    | nil =>
      cases i with
      | zero =>
        have hr : r0 = r := by simpa using hget
        subst hr
        simp [pathDiffGo]
      | succ i =>
        have := ih [] i r (by simp) (by simpa using hget)
        simpa [pathDiffGo] using this
    | cons q qrest =>
      cases i with
      | zero => simp at hlen
      | succ i =>
        have := ih qrest i r (Nat.le_of_succ_le_succ hlen) (by simpa using hget)
        simpa [pathDiffGo] using this

/-- Every `MultiMatch` the path walk produces carries at least the request
segment that was current when the Multi route segment was reached. -/
theorem pathDiffGo_multi_ne : ∀ (rs : List RouteSeg) (qs : List String) (n : String)
    (vs : List String), SegmentDiff.MultiMatch n vs ∈ pathDiffGo rs qs → vs ≠ [] := by
  intro rs
  induction rs with
  | nil => intro qs n vs h; simp [pathDiffGo] at h
  | cons r rest ih =>
    intro qs n vs h
    cases qs with
    | nil =>
      rcases List.mem_cons.mp h with heq | hm
      · cases heq
      · exact ih [] n vs hm
    | cons q qrest =>
      rcases List.mem_cons.mp h with heq | hm
      · obtain ⟨k, s, nm⟩ := r
        cases k with
        | Static =>
          by_cases hb : s == q
          · simp [hb] at heq
          · simp [hb] at heq
        | Single => simp at heq
        | Multi =>
          simp at heq
          obtain ⟨-, h2⟩ := heq
          rw [h2]
          exact List.cons_ne_nil q qrest
      · exact ih qrest n vs hm

/-- `pathDiff` is the per-segment walk followed by the trailing entries,
which are suppressed exactly when the walk ends in a `MultiMatch`. -/
theorem pathDiff_eq (rs : List RouteSeg) (qs : List String) :
    pathDiff rs qs = pathDiffGo rs qs ++ pathExtras rs qs := by
  unfold pathDiff pathExtras
  cases h : (pathDiffGo rs qs).getLast? with
  | none => simp [h]
  | some d => cases d <;> simp [h]

/-- The trailing entries are empty or are the mapped `Unexpected` list. -/
theorem pathExtras_cases (rs : List RouteSeg) (qs : List String) :
    pathExtras rs qs = [] ∨
    pathExtras rs qs = (qs.drop rs.length).map SegmentDiff.Unexpected := by
  unfold pathExtras
  cases h : (pathDiffGo rs qs).getLast? with
  | none => right; rfl
  | some d =>
    cases d with
    | StaticMatch s => right; rfl
    | SingleMatch a b => right; rfl
    | MultiMatch a b => left; rfl
    | Diff ds => right; rfl
    | Missing s => right; rfl
    | Unexpected s => right; rfl

/-- A walk ending in a `MultiMatch` suppresses the trailing entries. -/
theorem pathExtras_multi (rs : List RouteSeg) (qs : List String) (n : String)
    (vs : List String) (h : (pathDiffGo rs qs).getLast? = some (SegmentDiff.MultiMatch n vs)) :
    pathExtras rs qs = [] := by
  unfold pathExtras
  rw [h]

/-- A walk not ending in a `MultiMatch` keeps all the trailing entries. -/
theorem pathExtras_not_multi (rs : List RouteSeg) (qs : List String)
    (h : ∀ (n : String) (vs : List String),
      (pathDiffGo rs qs).getLast? ≠ some (SegmentDiff.MultiMatch n vs)) :
    pathExtras rs qs = (qs.drop rs.length).map SegmentDiff.Unexpected := by
  unfold pathExtras
  cases hl : (pathDiffGo rs qs).getLast? with
  | none => rfl
  | some d =>
    cases d with
    | StaticMatch s => rfl
    | SingleMatch a b => rfl
    | MultiMatch a b => exact absurd hl (h a b)
    | Diff ds => rfl
    | Missing s => rfl
    | Unexpected s => rfl

/-- The computed LCS is a common subsequence of both inputs. -/
theorem lcs_sublist_left (as bs : List Char) : List.Sublist (lcs as bs) as :=
  lcsAux_sublist_left _ as bs

/-- The computed LCS is a common subsequence of both inputs. -/
theorem lcs_sublist_right (as bs : List Char) : List.Sublist (lcs as bs) bs :=
  lcsAux_sublist_right _ as bs

/-- C7: the Text Diff Engine's edit script for `diff(A, B)` reconstructs both
inputs — concatenating the texts of the `Same` and `Rem` (Remove) operations
in order yields exactly `A`, concatenating the `Same` and `Add` texts yields
exactly `B` — and when `A = B` the script consists solely of `Same`
operations (whose concatenation is then the full string by the first part). -/
theorem diffReconstructs (A B : String) :
    sameRemText (Changeset.new A B).diffs = A ∧
    sameAddText (Changeset.new A B).diffs = B ∧
    (A = B → ∀ d ∈ (Changeset.new A B).diffs, ∃ s, d = Difference.Same s) := by
  refine ⟨?_, ?_, ?_⟩
  · show sameRemText (mergeDiff A.data B.data (lcs A.data B.data)) = A
    rw [mergeDiff_sameRem _ _ _ (lcs_sublist_left _ _) (lcs_sublist_right _ _)]
  · show sameAddText (mergeDiff A.data B.data (lcs A.data B.data)) = B
    rw [mergeDiff_sameAdd _ _ _ (lcs_sublist_left _ _) (lcs_sublist_right _ _)]
  · intro hAB d hd
    subst hAB
    have hdd : d ∈ mergeDiff A.data A.data (lcs A.data A.data) := hd
    rw [lcs_self, mergeDiff_self] at hdd
    obtain ⟨c, -, rfl⟩ := List.mem_map.mp hdd
    exact ⟨String.mk [c], rfl⟩

/-- C4: for every route and request, `pathDiff` is the per-segment walk —
exactly one entry per route path segment, in order — followed by trailing
`Unexpected` entries, one per request path segment beyond the route's length,
and those trailing entries are absent whenever the walk's last entry (the
last route path segment's diff) is a `MultiMatch`. -/
theorem pathDiffShape (rs : List RouteSeg) (qs : List String) :
    ∃ base extras, pathDiff rs qs = base ++ extras ∧
      base = pathDiffGo rs qs ∧
      base.length = rs.length ∧
      (∀ d ∈ extras, ∃ s, d = SegmentDiff.Unexpected s) ∧
      ((∃ n vs, base.getLast? = some (SegmentDiff.MultiMatch n vs)) → extras = []) ∧
      ((∀ (n : String) (vs : List String),
          base.getLast? ≠ some (SegmentDiff.MultiMatch n vs)) →
        extras.length = qs.length - rs.length) := by
  refine ⟨pathDiffGo rs qs, pathExtras rs qs, pathDiff_eq rs qs, rfl, pathDiffGo_length rs qs,
    ?_, ?_, ?_⟩
  · intro d hd
    rcases pathExtras_cases rs qs with h | h <;> rw [h] at hd
    · exact absurd hd (List.not_mem_nil d)
    · obtain ⟨s, -, rfl⟩ := List.mem_map.mp hd
      exact ⟨s, rfl⟩
  · rintro ⟨n, vs, hlast⟩
    exact pathExtras_multi rs qs n vs hlast
  · intro hno
    rw [pathExtras_not_multi rs qs hno]
    simp

/-- C9: a Multi route path segment reached with no request path segment left
is classified `Missing` with the segment's text, and every `MultiMatch` in a
path diff carries a non-empty list of request segments. -/
theorem multiMissingPath (rs : List RouteSeg) (qs : List String) (i : Nat) (r : RouteSeg)
    (hget : rs[i]? = some r) (_hkind : r.kind = Kind.Multi) (hlen : qs.length ≤ i) :
    (pathDiff rs qs)[i]? = some (SegmentDiff.Missing r.string) ∧
    ∀ (n : String) (vs : List String),
      SegmentDiff.MultiMatch n vs ∈ pathDiff rs qs → vs ≠ [] := by
  constructor
  · have hi : i < rs.length := by
      by_contra hcon
      rw [List.getElem?_eq_none (Nat.le_of_not_lt hcon)] at hget
      cases hget
    rw [pathDiff_eq, List.getElem?_append_left (by rw [pathDiffGo_length]; exact hi)]
    exact pathDiffGo_missing rs qs i r hlen hget
  · intro n vs hm
    rw [pathDiff_eq] at hm
    rcases List.mem_append.mp hm with h1 | h2
    · exact pathDiffGo_multi_ne rs qs n vs h1
    · rcases pathExtras_cases rs qs with h | h <;> rw [h] at h2
      · exact absurd h2 (List.not_mem_nil _)
      · obtain ⟨s, -, heq⟩ := List.mem_map.mp h2
        simp at heq

/-- Witness for C9: the route `/<_topic..>` against a request with no path
segments yields `Missing "_topic"` at the Multi segment's position. -/
theorem multiMissingPath_witness :
    (pathDiff [⟨Kind.Multi, "_topic", "_topic"⟩] [])[0]? =
      some (SegmentDiff.Missing "_topic") :=
  (multiMissingPath [⟨Kind.Multi, "_topic", "_topic"⟩] [] 0 ⟨Kind.Multi, "_topic", "_topic"⟩
    (by decide) rfl (by decide)).1

/-- C5: the media type comparison is an exhaustive four-way case analysis —
route-only yields `Missing` (the spec's RouteExpectsButRequestLacks),
request-only yields `Unexpected` (RequestHasButRouteDoesNotExpect), neither
yields `None` (NeitherExpects), and both yield `IsMatch` with top and sub
parts compared independently: case-insensitive equality gives `TrueStatic`, a
`*` on either side gives `TrueDynamic`, anything else the text diff engine's
`False` (the spec's TextMismatch). -/
theorem mediaFourWay :
    (∀ route_mt : MediaType,
      mediaTypeDiff (some route_mt) none = MediaTypeDiff.Missing route_mt.render) ∧
    (∀ req_mt : MediaType,
      mediaTypeDiff none (some req_mt) = MediaTypeDiff.Unexpected req_mt.render) ∧
    mediaTypeDiff none none = MediaTypeDiff.None ∧
    (∀ route_mt req_mt : MediaType, mediaTypeDiff (some route_mt) (some req_mt) =
      MediaTypeDiff.IsMatch (IsMediaTypeMatch.fromParts route_mt.top req_mt.top)
        (IsMediaTypeMatch.fromParts route_mt.sub req_mt.sub)) ∧
    (∀ r q : String,
      (uncasedEq r q = true →
        IsMediaTypeMatch.fromParts r q = IsMediaTypeMatch.TrueStatic r) ∧
      (uncasedEq r q = false → (uncasedEq r "*" || uncasedEq q "*") = true →
        IsMediaTypeMatch.fromParts r q = IsMediaTypeMatch.TrueDynamic r q) ∧
      (uncasedEq r q = false → (uncasedEq r "*" || uncasedEq q "*") = false →
        IsMediaTypeMatch.fromParts r q =
          IsMediaTypeMatch.False (Changeset.new q r).diffs)) := by
  refine ⟨fun _ => rfl, fun _ => rfl, rfl, fun _ _ => rfl, fun r q => ⟨?_, ?_, ?_⟩⟩
  · intro h
    simp [IsMediaTypeMatch.fromParts, h]
  · intro h1 h2
    simp [IsMediaTypeMatch.fromParts, h1, h2]
  · intro h1 h2
    simp [IsMediaTypeMatch.fromParts, h1, h2]

/-- C10: in the rendered two lines, the route line's media portion is
computed from the top-level comparison only (changing the sub result changes
nothing), a media type the request declares but the route does not expect
renders exactly like no media type at all, and the request line is
independent of the media diff entirely. -/
theorem renderMediaTopOnly (d : RoutingDiff) (top sub sub2 : IsMediaTypeMatch)
    (md md2 : MediaTypeDiff) (s : String) :
    RoutingDiff.print { d with media_type := MediaTypeDiff.IsMatch top sub } =
      RoutingDiff.print { d with media_type := MediaTypeDiff.IsMatch top sub2 } ∧
    RoutingDiff.print { d with media_type := MediaTypeDiff.Unexpected s } =
      RoutingDiff.print { d with media_type := MediaTypeDiff.None } ∧
    (RoutingDiff.print { d with media_type := md }).2 =
      (RoutingDiff.print { d with media_type := md2 }).2 :=
  ⟨rfl, rfl, rfl⟩

/-- C8: building the Diff Record is deterministic — two successful builds
from identical inputs are the same record and render to the same two lines. -/
theorem buildDeterministic (route : Route) (request : Request) (d1 d2 : RoutingDiff)
    (h1 : RoutingDiff.build route request = some d1)
    (h2 : RoutingDiff.build route request = some d2) :
    d1 = d2 ∧ d1.print = d2.print := by
  have h := h1.symm.trans h2
  injection h with h
  subst h
  exact ⟨rfl, rfl⟩

/-- Witness for C8: the empty GET route against the empty GET request builds
the same concrete record twice. -/
theorem buildDeterministic_witness :
    (⟨MethodDiff.Same "GET", [], [], MediaTypeDiff.None⟩ : RoutingDiff) =
      (⟨MethodDiff.Same "GET", [], [], MediaTypeDiff.None⟩ : RoutingDiff) ∧
    (⟨MethodDiff.Same "GET", [], [], MediaTypeDiff.None⟩ : RoutingDiff).print =
      (⟨MethodDiff.Same "GET", [], [], MediaTypeDiff.None⟩ : RoutingDiff).print :=
  buildDeterministic ⟨"GET", [], none, none⟩ ⟨"GET", [], none, none⟩ _ _ (by decide) (by decide)

/-- C6: for the route `/guide/<_topic..>` and the request path
`/guide/a/b/c`, the path diff is exactly a `StaticMatch` followed by one
`MultiMatch` of the three remaining segments, with no `Unexpected` entries. -/
theorem guideMultiPathDiff :
    pathDiff [⟨Kind.Static, "guide", "guide"⟩, ⟨Kind.Multi, "_topic", "_topic"⟩]
        ["guide", "a", "b", "c"] =
      [SegmentDiff.StaticMatch "guide", SegmentDiff.MultiMatch "_topic" ["a", "b", "c"]] ∧
    (pathDiff [⟨Kind.Static, "guide", "guide"⟩, ⟨Kind.Multi, "_topic", "_topic"⟩]
        ["guide", "a", "b", "c"]).countP
      (fun d => match d with | SegmentDiff.MultiMatch _ _ => true | _ => false) = 1 ∧
    (pathDiff [⟨Kind.Static, "guide", "guide"⟩, ⟨Kind.Multi, "_topic", "_topic"⟩]
        ["guide", "a", "b", "c"]).countP
      (fun d => match d with | SegmentDiff.Unexpected _ => true | _ => false) = 0 := by
  decide

/-- C1 (amended): building the Diff Record is total — every comparison
returns a result variant — for every route and every request whose query
item sequence is not present-but-empty; only the Static-query fallback's
minimum-edit-distance unwrap can fail, and only when the request's query
items are present but empty. -/
theorem buildTotalUnlessEmptyQueryItems (route : Route) (request : Request)
    (hq : request.query_items ≠ some []) :
    (RoutingDiff.build route request).isSome = true := by
  have hquery : (queryDiff route.query_segments request.query_items).isSome = true := by
    cases hrs : route.query_segments with
    | none =>
      cases hri : request.query_items with
      | none => simp [queryDiff]
      | some items => simp [queryDiff]
    | some rps =>
      cases hri : request.query_items with
      | none => simp [queryDiff]
      | some items =>
        cases items with
        | nil => exact absurd hri hq
        | cons a as =>
          simp only [queryDiff]
          exact queryDiffGo_isSome (a :: as) (List.cons_ne_nil a as) rps []
  cases hq2 : queryDiff route.query_segments request.query_items with
  | none => rw [hq2] at hquery; cases hquery
  | some q => simp [RoutingDiff.build, hq2]

/-- Witness for C1: a route expecting a query compared against a request
carrying no query string at all builds a Diff Record. -/
theorem buildTotalUnlessEmptyQueryItems_witness :
    (RoutingDiff.build ⟨"GET", [], some [⟨Kind.Static, "flag=23", "flag"⟩], none⟩
      ⟨"GET", [], none, none⟩).isSome = true :=
  buildTotalUnlessEmptyQueryItems ⟨"GET", [], some [⟨Kind.Static, "flag=23", "flag"⟩], none⟩
    ⟨"GET", [], none, none⟩ (by decide)

/-- Counterexample to C1 as stated: for a route expecting the Static query
`flag=23` and a request whose query item sequence is present but empty, the
Static fallback's minimum-edit-distance candidate does not exist and the
build does not return a result (the `expect` panics). -/
theorem buildPanicsOnEmptyQueryItems :
    RoutingDiff.build ⟨"GET", [], some [⟨Kind.Static, "flag=23", "flag"⟩], none⟩
      ⟨"GET", [], some [], none⟩ = none := by
  decide

/-- C2 (amended): for the route query template `flag=23&lalelu=1` (two
Static query segments) against the request query `?flag=23`, the query diff
is exactly one `StaticMatch "flag=23"` followed by one `Diff` (the spec's
TextMismatch) of the edit script from `flag=23` to `lalelu=1`; `Missing`
entries appear only when the request carries no query item sequence at all,
as the second conjunct shows. -/
theorem flagQueryDiffActual :
    queryDiff (some [⟨Kind.Static, "flag=23", "flag"⟩, ⟨Kind.Static, "lalelu=1", "lalelu"⟩])
        (some [⟨"flag", "flag=23"⟩]) =
      some [SegmentDiff.StaticMatch "flag=23",
        SegmentDiff.Diff (Changeset.new "flag=23" "lalelu=1").diffs] ∧
    queryDiff (some [⟨Kind.Static, "flag=23", "flag"⟩, ⟨Kind.Static, "lalelu=1", "lalelu"⟩])
        none =
      some [SegmentDiff.Missing "flag=23", SegmentDiff.Missing "lalelu=1"] := by
  constructor
  · decide
  · decide

/-- Counterexample to C2 as stated: in that same comparison the query diff
contains no `Missing "lalelu=1"` entry at all (the second segment yields a
TextMismatch instead, since the request does have query items). -/
theorem flagQueryDiffNoMissing :
    ¬ ((queryDiff
        (some [⟨Kind.Static, "flag=23", "flag"⟩, ⟨Kind.Static, "lalelu=1", "lalelu"⟩])
        (some [⟨"flag", "flag=23"⟩])).getD []).count (SegmentDiff.Missing "lalelu=1") = 1 := by
  decide

/-- C3: for a Static route query segment with no request item whose raw text
equals the literal, the classifier returns the text diff against a request
item whose edit distance to the literal is minimal over all request items,
and every item earlier in request order has strictly greater distance (ties
are broken in favor of the first occurrence). -/
theorem staticQueryClosestFirst (req_params matched : List QueryItem) (route_param : RouteSeg)
    (hkind : route_param.kind = Kind.Static)
    (hmiss : ∀ q ∈ req_params, ¬ route_param.string = q.raw)
    (hne : req_params ≠ []) :
    ∃ (i : Nat) (q : QueryItem), req_params[i]? = some q ∧
      querySegDiff req_params matched route_param =
        some (SegmentDiff.Diff (Changeset.new q.raw route_param.string).diffs, matched) ∧
      (∀ q2 ∈ req_params, (Changeset.new q.raw route_param.string).distance ≤
        (Changeset.new q2.raw route_param.string).distance) ∧
      (∀ (j : Nat) (q2 : QueryItem), j < i → req_params[j]? = some q2 →
        (Changeset.new q.raw route_param.string).distance <
        (Changeset.new q2.raw route_param.string).distance) := by
  have hfind : req_params.find? (fun req_param => route_param.string == req_param.raw) = none := by
    rw [List.find?_eq_none]
    intro q hq
    simpa using hmiss q hq
  cases req_params with
  | nil => exact absurd rfl hne
  | cons r rs =>
    obtain ⟨i, y, hget, hfold, hmin, hfirst⟩ :=
      foldlMin_first (rs.map fun q => Changeset.new q.raw route_param.string)
        (Changeset.new r.raw route_param.string)
    have hmap : ((r :: rs).map fun q => Changeset.new q.raw route_param.string)[i]? = some y := by
      simpa using hget
    rw [List.getElem?_map] at hmap
    cases hq : (r :: rs)[i]? with
    | none => rw [hq] at hmap; cases hmap
    | some q =>
      rw [hq] at hmap
      have hy : Changeset.new q.raw route_param.string = y := by simpa using hmap
      refine ⟨i, q, hq, ?_, ?_, ?_⟩
      · simp only [querySegDiff, hkind, hfind]
        simp only [List.map_cons, minByDistance]
        rw [hfold, ← hy]
      · intro q2 hq2
        have hmem : ((fun q => Changeset.new q.raw route_param.string) q2) ∈
            ((r :: rs).map fun q => Changeset.new q.raw route_param.string) :=
          List.mem_map_of_mem _ hq2
        have h := hmin _ hmem
        rwa [← hy] at h
      · intro j q2 hj hjget
        have hjmap : ((r :: rs).map fun q => Changeset.new q.raw route_param.string)[j]? =
            some (Changeset.new q2.raw route_param.string) := by
          rw [List.getElem?_map, hjget]
          rfl
        have h := hfirst j _ hj hjmap
        rwa [← hy] at h

/-- Witness for C3: the Static query segment `lalelu=1` against the single
request item `flag=23` (no exact match) picks that item as the closest
candidate. -/
theorem staticQueryClosestFirst_witness :
    ∃ (i : Nat) (q : QueryItem), [(⟨"flag", "flag=23"⟩ : QueryItem)][i]? = some q ∧
      querySegDiff [⟨"flag", "flag=23"⟩] [] ⟨Kind.Static, "lalelu=1", "lalelu"⟩ =
        some (SegmentDiff.Diff (Changeset.new q.raw "lalelu=1").diffs, []) ∧
      (∀ q2 ∈ [(⟨"flag", "flag=23"⟩ : QueryItem)],
        (Changeset.new q.raw "lalelu=1").distance ≤
          (Changeset.new q2.raw "lalelu=1").distance) ∧
      (∀ (j : Nat) (q2 : QueryItem), j < i →
        [(⟨"flag", "flag=23"⟩ : QueryItem)][j]? = some q2 →
        (Changeset.new q.raw "lalelu=1").distance <
          (Changeset.new q2.raw "lalelu=1").distance) :=
  staticQueryClosestFirst [⟨"flag", "flag=23"⟩] [] ⟨Kind.Static, "lalelu=1", "lalelu"⟩ rfl
    (by decide) (by decide)
